import Mathlib

/-!
Verification of the Filter & Aggregation Module of the expense-tracker
client (`src/components/ExpenseList.js` and an unnamed variant of the same
component).

The module's operations are pure JavaScript functions over an in-memory
list of expense records:

* `filteredExpenses`  — `expenses.filter(expense => ...)` with a category
  rule, an inclusive date range and an inclusive amount range
  (`applyFilters` in the spec);
* `availableCategories` — `[...new Set(expenses.flatMap(exp => exp.categories || []))]`
  (`deriveAvailableCategories` in the spec);
* `totalAmount` — `filteredExpenses.reduce((sum, exp) => sum + exp.amount, 0)`
  (`computeTotal` in the spec);
* the initial values of `filterStartDate` / `filterEndDate`
  (`defaultFilterSpec` in the spec).

Shallow embedding choices:

* calendar dates are day numbers (`Int`, days since the Unix epoch); for
  day-granularity ISO strings, JavaScript `new Date(a) < new Date(b)`
  coincides with `<` on day numbers;
* amounts are exact integers (`Int`); the filter logic only compares them;
* a possibly-absent field (`description`, `categories`) is an `Option`;
  JavaScript truthiness guards (`expense.categories && ...`,
  `exp.categories || []`, `filterStartDate && ...`) become matches on the
  `Option`;
* the filter state quintuple (`selectedFilterCategories`, `filterStartDate`,
  `filterEndDate`, `filterAmountMin`, `filterAmountMax`) is a `FilterSpec`
  record; an empty text field (falsy `''`) is `none`.
-/

namespace Expensify

/-- One expense record, as stored in the document collection and consumed by
`ExpenseList`. `id` is the opaque document key; `description` and
`categories` may be absent. -/
structure Expense where
  id : Nat
  amount : Int
  date : Int
  description : Option String
  categories : Option (List String)
  deriving DecidableEq, Repr

/-- The client-local filter state of `ExpenseList`: selected category labels,
inclusive date bounds and inclusive amount bounds; `none` is an unset
(falsy, empty-string) field. -/
structure FilterSpec where
  categories : List String
  startDate : Option Int
  endDate : Option Int
  minAmount : Option Int
  maxAmount : Option Int
  deriving DecidableEq, Repr

/-- The empty filter spec: no categories selected, no date bounds, no amount
bounds. -/
def emptyFilterSpec : FilterSpec :=
  { categories := [], startDate := none, endDate := none,
    minAmount := none, maxAmount := none }

/-- The predicate of `expenses.filter(expense => {...})` in
`src/components/ExpenseList.js` (all-match variant), transliterating its
early returns: the category check `selectedFilterCategories.every(cat =>
expense.categories && expense.categories.includes(cat))` runs only when
`selectedFilterCategories.length > 0`, then each set bound rejects with
`new Date(expense.date) < new Date(filterStartDate)` etc. -/
def keepExpense (s : FilterSpec) (e : Expense) : Bool :=
  if s.categories.length > 0 &&
      !(s.categories.all fun cat =>
        match e.categories with
        | none => false
        | some cs => cs.contains cat) then false
  else if (match s.startDate with
           | some d => decide (e.date < d)
           | none => false) then false
  else if (match s.endDate with
           | some d => decide (d < e.date)
           | none => false) then false
  else if (match s.minAmount with
           | some a => decide (e.amount < a)
           | none => false) then false
  else if (match s.maxAmount with
           | some a => decide (a < e.amount)
           | none => false) then false
  else true

/-- `filteredExpenses` of `src/components/ExpenseList.js`:
`expenses.filter(expense => ...)` with the all-match category rule. -/
def applyFilters (expenses : List Expense) (s : FilterSpec) : List Expense :=
  expenses.filter (keepExpense s)

/-- The filter predicate of the unnamed variant (`src/unnamed/part_000`),
identical except that the category check is
`selectedFilterCategories.some(cat => expense.categories &&
expense.categories.includes(cat))` (any-match). -/
def keepExpenseAny (s : FilterSpec) (e : Expense) : Bool :=
  if s.categories.length > 0 &&
      !(s.categories.any fun cat =>
        match e.categories with
        | none => false
        | some cs => cs.contains cat) then false
  else if (match s.startDate with
           | some d => decide (e.date < d)
           | none => false) then false
  else if (match s.endDate with
           | some d => decide (d < e.date)
           | none => false) then false
  else if (match s.minAmount with
           | some a => decide (e.amount < a)
           | none => false) then false
  else if (match s.maxAmount with
           | some a => decide (a < e.amount)
           | none => false) then false
  else true

/-- `filteredExpenses` of `src/unnamed/part_000` (any-match category rule). -/
def applyFiltersAny (expenses : List Expense) (s : FilterSpec) : List Expense :=
  expenses.filter (keepExpenseAny s)

/-- Insertion into a JavaScript `Set` keeps the first occurrence of each
element in iteration order; `dedupAux seen l` is the iteration order of the
elements of `l` not already in `seen` after inserting all of `l`. -/
def dedupAux (seen : List String) : List String → List String
  | [] => []
  | a :: l => if a ∈ seen then dedupAux seen l else a :: dedupAux (a :: seen) l

/-- `[...new Set(xs)]`: deduplication keeping the first occurrence of each
element. -/
def dedupKeepFirst (l : List String) : List String :=
  dedupAux [] l

/-- `expenses.flatMap(exp => exp.categories || [])`: the concatenation of
all category sequences, an absent field contributing nothing. -/
def flatCats (expenses : List Expense) : List String :=
  expenses.flatMap fun e =>
    match e.categories with
    | none => []
    | some cs => cs

/-- `availableCategories`:
`[...new Set(expenses.flatMap(exp => exp.categories || []))]`. -/
def deriveAvailableCategories (expenses : List Expense) : List String :=
  dedupKeepFirst (flatCats expenses)

/-- Index of the first occurrence of `x` in a list (length of the list when
`x` does not occur); used to state the first-seen-order guarantee. -/
def firstIdx (x : String) : List String → Nat
  | [] => 0
  | a :: l => if a = x then 0 else firstIdx x l + 1

/-- `totalAmount`: `expenses.reduce((sum, exp) => sum + exp.amount, 0)`. -/
def computeTotal (expenses : List Expense) : Int :=
  expenses.foldl (fun sum e => sum + e.amount) 0

/-! ### A fragment of the JavaScript `Date` semantics

The default filter state (`filterStartDate` / `filterEndDate` initializers,
`ExpenseList.js` lines 22-32) is computed from the current instant and the
host timezone. An instant is `Int` minutes since the Unix epoch (UTC);
`off` is the timezone offset in minutes added to UTC to obtain local time
(for example `330` for UTC+5:30). Civil calendar conversions follow the
standard proleptic-Gregorian algorithms, with months `1..12`. -/

/-- Day number (days since 1970-01-01) of a civil date `(y, m, d)`,
months `1..12`. -/
def daysFromCivil (y m d : Int) : Int :=
  let yAdj := if m ≤ 2 then y - 1 else y
  let era := Int.fdiv yAdj 400
  let yoe := yAdj - 400 * era
  let mp := Int.emod (m + 9) 12
  let doy := Int.fdiv (153 * mp + 2) 5 + d - 1
  let doe := 365 * yoe + Int.fdiv yoe 4 - Int.fdiv yoe 100 + doy
  146097 * era + doe - 719468

/-- Civil date `(y, m, d)` of a day number (days since 1970-01-01). -/
def civilFromDays (z : Int) : Int × Int × Int :=
  let zShift := z + 719468
  let era := Int.fdiv zShift 146097
  let doe := zShift - 146097 * era
  let yoe := Int.fdiv (doe - Int.fdiv doe 1460 + Int.fdiv doe 36524 - Int.fdiv doe 146096) 365
  let y := 400 * era + yoe
  let doy := doe - (365 * yoe + Int.fdiv yoe 4 - Int.fdiv yoe 100)
  let mp := Int.fdiv (5 * doy + 2) 153
  let d := doy - Int.fdiv (153 * mp + 2) 5 + 1
  let m := if mp < 10 then mp + 3 else mp - 9
  (if m ≤ 2 then y + 1 else y, m, d)

/-- The claim-worded date and amount rule, following the specification text:
expense `date` is at least `startDate` when set and at most `endDate` when
set, and `amount` is at least `minAmount` when set and at most `maxAmount`
when set (all bounds inclusive; an unset bound constrains nothing). -/
def dateAmountWithinBounds (s : FilterSpec) (e : Expense) : Bool :=
  s.startDate.all (fun d => decide (d ≤ e.date)) &&
  s.endDate.all (fun d => decide (e.date ≤ d)) &&
  s.minAmount.all (fun a => decide (a ≤ e.amount)) &&
  s.maxAmount.all (fun a => decide (e.amount ≤ a))

/-- The spec-worded retention predicate: when categories are selected the
expense carries all of them (all-match policy, the policy of
`src/components/ExpenseList.js`), and the date and amount lie within the
inclusive bounds. -/
def specKeep (s : FilterSpec) (e : Expense) : Bool :=
  (s.categories.isEmpty ||
    s.categories.all fun c => (e.categories.getD []).contains c) &&
  dateAmountWithinBounds s e

/-- The local civil date read by `now.getFullYear()` / `now.getMonth()` /
`now.getDate()` at UTC instant `t` (minutes) with timezone offset `off`
(minutes, local = UTC + off). -/
def localCivil (t off : Int) : Int × Int × Int :=
  civilFromDays (Int.fdiv (t + off) 1440)

/-- The `filterStartDate` initializer of `ExpenseList.js`:
`new Date(now.getFullYear(), now.getMonth(), 1).toISOString().split('T')[0]`,
as a day number. `new Date(y, m, 1)` is local midnight on the first of the
current local month; `toISOString` renders that instant in UTC, so the
resulting calendar day is the UTC day containing it. -/
def defaultFilterStartDay (t off : Int) : Int :=
  let c := localCivil t off
  Int.fdiv (daysFromCivil c.1 c.2.1 1 * 1440 - off) 1440

/-- The `filterEndDate` initializer of `ExpenseList.js`:
`new Date().toISOString().split('T')[0]`, the UTC day of the current
instant, as a day number. -/
def defaultFilterEndDay (t _off : Int) : Int :=
  Int.fdiv t 1440

/-- The initial filter state of `ExpenseList` (`defaultFilterSpec` in the
spec): the two date initializers, no categories, no amount bounds. -/
def defaultFilterSpec (t off : Int) : FilterSpec :=
  { categories := []
    startDate := some (defaultFilterStartDay t off)
    endDate := some (defaultFilterEndDay t off)
    minAmount := none
    maxAmount := none }

/-! ### Instrumented (exception-aware) semantics

JavaScript raises a `TypeError` when a property such as `.includes` is read
from `undefined`. To state that the module never throws on well-typed
input, the possibly-absent `categories` field is accessed through an
`Except`-valued operation that fails exactly where an unguarded JavaScript
access would, and the source's truthiness guards are transliterated around
it. -/

/-- `o.includes(c)` where `o` may be `undefined`: raises on `undefined`. -/
def jsIncludes (o : Option (List String)) (c : String) : Except String Bool :=
  match o with
  | none => Except.error "TypeError: Cannot read properties of undefined"
  | some cs => Except.ok (cs.contains c)

/-- `selectedFilterCategories.every(cat => expense.categories &&
expense.categories.includes(cat))` under the instrumented access: the
truthiness guard short-circuits to `false` when the field is absent, so
`jsIncludes` is only reached on a present field. -/
def hasAllCategoriesChecked (sel : List String) (o : Option (List String)) :
    Except String Bool :=
  match sel with
  | [] => Except.ok true
  | c :: rest => do
    let b ← match o with
      | none => pure false
      | some cs => jsIncludes (some cs) c
    if b then hasAllCategoriesChecked rest o else pure false

/-- The filter predicate of `ExpenseList.js` under the instrumented access. -/
def keepExpenseChecked (s : FilterSpec) (e : Expense) : Except String Bool := do
  if s.categories.length > 0 then
    let hasAll ← hasAllCategoriesChecked s.categories e.categories
    if !hasAll then return false
  if (match s.startDate with
      | some d => decide (e.date < d)
      | none => false) then return false
  if (match s.endDate with
      | some d => decide (d < e.date)
      | none => false) then return false
  if (match s.minAmount with
      | some a => decide (e.amount < a)
      | none => false) then return false
  if (match s.maxAmount with
      | some a => decide (a < e.amount)
      | none => false) then return false
  return true

/-- `expenses.filter(...)` under the instrumented predicate. -/
def applyFiltersChecked : List Expense → FilterSpec → Except String (List Expense)
  | [], _ => Except.ok []
  | e :: t, s => do
    let b ← keepExpenseChecked s e
    let rest ← applyFiltersChecked t s
    pure (if b then e :: rest else rest)

/-- `expenses.flatMap(exp => exp.categories || [])` under the instrumented
access: the `|| []` truthiness guard replaces an absent `categories` field
by the empty array, so no property of `undefined` is ever read. -/
def flatCatsChecked : List Expense → Except String (List String)
  | [] => Except.ok []
  | e :: t => do
    let cs : List String :=
      match e.categories with
      | none => []
      | some cs => cs
    let rest ← flatCatsChecked t
    pure (cs ++ rest)

/-- `availableCategories` under the instrumented access. -/
def deriveAvailableCategoriesChecked (expenses : List Expense) :
    Except String (List String) := do
  let flat ← flatCatsChecked expenses
  pure (dedupKeepFirst flat)

/-! ### Concrete inputs used by counterexamples and witnesses -/

/-- A concrete expense: amount 100, date (day) 10, no description, an empty
category list. -/
def exampleExpense : Expense :=
  { id := 1, amount := 100, date := 10, description := none, categories := some [] }

/-- A concrete filter spec: one selected category, date bounds 5..15 and
amount bounds 50..150, all satisfied by `exampleExpense` except the
category rule. -/
def exampleSpec : FilterSpec :=
  { categories := ["food"], startDate := some 5, endDate := some 15,
    minAmount := some 50, maxAmount := some 150 }

/-! ## Helper lemmas -/

theorem decide_lt_eq_not_decide_le (a b : Int) : decide (a < b) = !decide (b ≤ a) := by
  simp [← decide_not, Int.not_le]

theorem not_decide_exists_not_mem (ct ecs : List String) :
    (!decide (∃ x ∈ ct, x ∉ ecs)) = ct.all fun cat => decide (cat ∈ ecs) := by
  rw [Bool.eq_iff_iff]
  simp

/-- The transliterated filter predicate coincides pointwise with the
spec-worded retention predicate. -/
theorem keepExpense_eq_specKeep (s : FilterSpec) (e : Expense) :
    keepExpense s e = specKeep s e := by
  rcases s with ⟨cats, sd, ed, mina, maxa⟩
  rcases e with ⟨i, amt, dt, desc, ecats⟩
  simp only [keepExpense, specKeep, dateAmountWithinBounds]
  rcases cats with _ | ⟨c, ct⟩ <;> rcases ecats with _ | ecs <;>
    rcases sd with _ | d1 <;> rcases ed with _ | d2 <;>
    rcases mina with _ | a1 <;> rcases maxa with _ | a2 <;>
    simp_all [Int.not_lt, Int.not_le, Option.all, decide_lt_eq_not_decide_le,
      not_decide_exists_not_mem, Bool.and_assoc]

theorem mem_dedupAux (x : String) (l : List String) :
    ∀ seen, x ∈ dedupAux seen l ↔ (x ∈ l ∧ x ∉ seen) := by
  induction l with
  | nil => intro seen; simp [dedupAux]
  | cons a t ih =>
    intro seen
    by_cases h : a ∈ seen <;>
      simp [dedupAux, h, ih, List.mem_cons] <;> by_cases hxa : x = a <;> simp_all

theorem nodup_dedupAux (l : List String) : ∀ seen, (dedupAux seen l).Nodup := by
  induction l with
  | nil => intro seen; simp [dedupAux]
  | cons a t ih =>
    intro seen
    by_cases h : a ∈ seen
    · simpa [dedupAux, h] using ih seen
    · simp only [dedupAux, if_neg h, List.nodup_cons]
      refine ⟨fun hc => ?_, ih _⟩
      exact ((mem_dedupAux a t (a :: seen)).mp hc).2 (List.mem_cons_self a seen)

theorem firstIdx_cons_of_ne (x a : String) (l : List String) (h : a ≠ x) :
    firstIdx x (a :: l) = firstIdx x l + 1 := by
  simp [firstIdx, h]

/-- The elements of `dedupAux seen l` appear in order of their first
occurrence in `l`. -/
theorem pairwise_firstIdx_dedupAux (l : List String) :
    ∀ seen, (dedupAux seen l).Pairwise fun x y => firstIdx x l < firstIdx y l := by
  induction l with
  | nil => intro seen; simp [dedupAux]
  | cons a t ih =>
    intro seen
    by_cases h : a ∈ seen
    · simp only [dedupAux, if_pos h]
      refine (ih seen).imp_of_mem ?_
      intro x y hx hy hlt
      have hxa : a ≠ x := fun hax => ((mem_dedupAux x t seen).mp hx).2 (hax ▸ h)
      have hya : a ≠ y := fun hay => ((mem_dedupAux y t seen).mp hy).2 (hay ▸ h)
      rw [firstIdx_cons_of_ne x a t hxa, firstIdx_cons_of_ne y a t hya]
      omega
    · simp only [dedupAux, if_neg h]
      refine List.Pairwise.cons ?_ ?_
      · intro y hy
        have hmem := (mem_dedupAux y t (a :: seen)).mp hy
        have hya : a ≠ y := fun hay => hmem.2 (hay ▸ List.mem_cons_self a seen)
        rw [firstIdx_cons_of_ne y a t hya]
        simp [firstIdx]
      · refine (ih (a :: seen)).imp_of_mem ?_
        intro x y hx hy hlt
        have hxa : a ≠ x :=
          fun hax => ((mem_dedupAux x t (a :: seen)).mp hx).2 (hax ▸ List.mem_cons_self a seen)
        have hya : a ≠ y :=
          fun hay => ((mem_dedupAux y t (a :: seen)).mp hy).2 (hay ▸ List.mem_cons_self a seen)
        rw [firstIdx_cons_of_ne x a t hxa, firstIdx_cons_of_ne y a t hya]
        omega

theorem hasAllCategoriesChecked_eq (sel : List String) (o : Option (List String)) :
    hasAllCategoriesChecked sel o =
      Except.ok (sel.all fun c =>
        match o with
        | none => false
        | some cs => cs.contains c) := by
  induction sel with
  | nil => simp [hasAllCategoriesChecked]
  | cons c rest ih =>
    cases o with
    | none =>
      simp [hasAllCategoriesChecked, ih, Bind.bind, Except.bind, Pure.pure, Except.pure]
    | some cs =>
      simp only [hasAllCategoriesChecked, jsIncludes, List.all_cons,
        Bind.bind, Except.bind, Pure.pure, Except.pure]
      cases h : cs.contains c <;> simp [h, ih]

/-- The instrumented filter predicate never raises and agrees with the pure
embedding. -/
theorem keepExpenseChecked_eq (s : FilterSpec) (e : Expense) :
    keepExpenseChecked s e = Except.ok (keepExpense s e) := by
  simp only [keepExpenseChecked, keepExpense, hasAllCategoriesChecked_eq,
    Bind.bind, Except.bind, Pure.pure, Except.pure]
  by_cases h0 : s.categories.length > 0 <;>
    cases hall : s.categories.all fun c =>
      (match e.categories with
       | none => false
       | some cs => cs.contains c) <;>
    simp [h0, hall] <;>
    cases h1 : (match s.startDate with
      | some d => decide (e.date < d)
      | none => false) <;>
    cases h2 : (match s.endDate with
      | some d => decide (d < e.date)
      | none => false) <;>
    cases h3 : (match s.minAmount with
      | some a => decide (e.amount < a)
      | none => false) <;>
    cases h4 : (match s.maxAmount with
      | some a => decide (a < e.amount)
      | none => false) <;>
    simp [h1, h2, h3, h4]

theorem applyFiltersChecked_eq (E : List Expense) (s : FilterSpec) :
    applyFiltersChecked E s = Except.ok (applyFilters E s) := by
  induction E with
  | nil => rfl
  | cons e t ih =>
    simp only [applyFiltersChecked, keepExpenseChecked_eq, ih, applyFilters,
      List.filter_cons, Bind.bind, Except.bind, Pure.pure, Except.pure]

theorem flatCatsChecked_eq (E : List Expense) :
    flatCatsChecked E = Except.ok (flatCats E) := by
  induction E with
  | nil => rfl
  | cons e t ih =>
    simp only [flatCatsChecked, flatCats, List.flatMap_cons, ih,
      Bind.bind, Except.bind, Pure.pure, Except.pure]

theorem deriveAvailableCategoriesChecked_eq (E : List Expense) :
    deriveAvailableCategoriesChecked E = Except.ok (deriveAvailableCategories E) := by
  simp [deriveAvailableCategoriesChecked, flatCatsChecked_eq, deriveAvailableCategories,
    Bind.bind, Except.bind, Pure.pure, Except.pure]

theorem foldl_add_amount (E : List Expense) :
    ∀ c : Int, E.foldl (fun sum e => sum + e.amount) c = c + (E.map Expense.amount).sum := by
  induction E with
  | nil => intro c; simp
  | cons e t ih =>
    intro c
    simp only [List.foldl_cons, ih, List.map_cons, List.sum_cons]
    ring

theorem computeTotal_eq_sum (E : List Expense) :
    computeTotal E = (E.map Expense.amount).sum := by
  simpa [computeTotal] using foldl_add_amount E 0

/-! ## Claims -/

/-- C1 (counterexample): it is not the case that `applyFilters` retains an
expense exactly when its date and amount lie within the bounds: for the
concrete spec selecting the category "food" and the concrete expense
without it, the date and amount bounds all hold yet the expense is
dropped. -/
theorem applyFilters_date_amount_only_cex :
    dateAmountWithinBounds exampleSpec exampleExpense = true ∧
    exampleExpense ∈ [exampleExpense] ∧
    exampleExpense ∉ applyFilters [exampleExpense] exampleSpec := by
  decide

/-- C1 (amended): for every expense sequence and every filter spec,
`applyFilters` retains an expense exactly when it passes the category rule
(when categories are selected, the expense carries all of them) and its
date and amount lie within the bounds inclusively: date at least
`startDate` when set, at most `endDate` when set, amount at least
`minAmount` when set, at most `maxAmount` when set; in particular an
expense dated exactly on a bound is included, and date comparison is by
calendar day. -/
theorem applyFilters_characterization (E : List Expense) (s : FilterSpec) :
    applyFilters E s = E.filter (specKeep s) :=
  List.filter_congr fun e _ => keepExpense_eq_specKeep s e

/-- C2: the output of `applyFilters` (in either variant) is a subsequence
of the input, preserving relative order, and the function is
deterministic: equal inputs give equal outputs. In this embedding the
input list is an immutable value, so non-mutation is inherent. -/
theorem applyFilters_order_preserving_pure (E : List Expense) (s : FilterSpec)
    (E2 : List Expense) (s2 : FilterSpec) (hE : E2 = E) (hs : s2 = s) :
    (applyFilters E s).Sublist E ∧ (applyFiltersAny E s).Sublist E ∧
    applyFilters E2 s2 = applyFilters E s := by
  subst hE hs
  exact ⟨List.filter_sublist _, List.filter_sublist _, rfl⟩

/-- C2 (witness): the theorem applied at a concrete expense list and spec. -/
theorem applyFilters_order_preserving_pure_witness :
    (applyFilters [exampleExpense] exampleSpec).Sublist [exampleExpense] ∧
    (applyFiltersAny [exampleExpense] exampleSpec).Sublist [exampleExpense] ∧
    applyFilters [exampleExpense] exampleSpec = applyFilters [exampleExpense] exampleSpec :=
  applyFilters_order_preserving_pure [exampleExpense] exampleSpec
    [exampleExpense] exampleSpec rfl rfl

/-- C3: filtering with the empty filter spec (no categories selected, no
date bounds, no amount bounds) returns the input sequence itself. -/
theorem applyFilters_empty_spec_identity (E : List Expense) :
    applyFilters E emptyFilterSpec = E := by
  unfold applyFilters
  refine List.filter_eq_self.mpr fun e _ => ?_
  simp [keepExpense, emptyFilterSpec]

/-- C4: `applyFilters` is idempotent: filtering the result again with the
same spec returns the same sequence. -/
theorem applyFilters_idempotent (E : List Expense) (s : FilterSpec) :
    applyFilters (applyFilters E s) s = applyFilters E s := by
  simp [applyFilters, List.filter_filter]

/-- C5: `deriveAvailableCategories` has no duplicates, contains exactly the
labels occurring in some expense's categories, lists them in first-seen
order over the concatenation of the category sequences (the index of the
first occurrence is strictly increasing along the output), and returns the
empty sequence on the empty input. -/
theorem deriveAvailableCategories_correct (E : List Expense) :
    (deriveAvailableCategories E).Nodup ∧
    (∀ x, x ∈ deriveAvailableCategories E ↔ x ∈ flatCats E) ∧
    (deriveAvailableCategories E).Pairwise
      (fun x y => firstIdx x (flatCats E) < firstIdx y (flatCats E)) ∧
    deriveAvailableCategories [] = [] := by
  refine ⟨nodup_dedupAux _ _, fun x => ?_, pairwise_firstIdx_dedupAux _ _, rfl⟩
  rw [deriveAvailableCategories, dedupKeepFirst, mem_dedupAux]
  simp

/-- C7: when every amount in the input is non-negative, the total of the
filtered sequence is at most the total of the input. -/
theorem computeTotal_applyFilters_le (E : List Expense) (s : FilterSpec)
    (h : ∀ e ∈ E, 0 ≤ e.amount) :
    computeTotal (applyFilters E s) ≤ computeTotal E := by
  rw [computeTotal_eq_sum, computeTotal_eq_sum]
  refine List.Sublist.sum_le_sum ((List.filter_sublist E).map Expense.amount) ?_
  intro a ha
  obtain ⟨e, he, rfl⟩ := List.mem_map.mp ha
  exact h e he

/-- C7 (witness): the theorem applied at a concrete non-negative expense
list and spec. -/
theorem computeTotal_applyFilters_le_witness :
    (∀ e ∈ [exampleExpense], 0 ≤ e.amount) ∧
    computeTotal (applyFilters [exampleExpense] exampleSpec) ≤ computeTotal [exampleExpense] :=
  ⟨by decide, computeTotal_applyFilters_le [exampleExpense] exampleSpec (by decide)⟩

/-- C8: the three operations are total on all well-typed inputs (absent
`description` or `categories` fields included) and never raise: under the
instrumented semantics, in which an unguarded property access on an absent
field raises a `TypeError`, filtering and category derivation return `ok`
on every input, and the total always exists. -/
theorem filter_aggregation_ops_total (E : List Expense) (s : FilterSpec) :
    (∃ r, applyFiltersChecked E s = Except.ok r) ∧
    (∃ cats, deriveAvailableCategoriesChecked E = Except.ok cats) ∧
    (∃ total, computeTotal E = total) :=
  ⟨⟨applyFilters E s, applyFiltersChecked_eq E s⟩,
   ⟨deriveAvailableCategories E, deriveAvailableCategoriesChecked_eq E⟩,
   ⟨computeTotal E, rfl⟩⟩

/-- C9 (code bug evaluation): at the UTC instant `t = 28421550` minutes
(2024-01-15 10:00 local) with timezone offset +330 minutes (UTC+5:30), the
current local civil date is 2024-01-15, so the first day of the current
calendar month is 2024-01-01 (day 19723); but the `filterStartDate`
initializer yields day 19722, i.e. 2023-12-31 — `toISOString` renders the
local midnight in UTC, crossing the month boundary — contradicting both
the claim and the source comment. -/
theorem defaultFilterSpec_start_not_first_of_month :
    localCivil 28421550 330 = (2024, 1, 15) ∧
    daysFromCivil 2024 1 1 = 19723 ∧
    daysFromCivil 2023 12 31 = 19722 ∧
    (defaultFilterSpec 28421550 330).startDate = some 19722 ∧
    (defaultFilterSpec 28421550 330).startDate ≠ some 19723 := by
  decide

/-- C10: the all-match filter of `src/components/ExpenseList.js` and the
any-match filter of `src/unnamed/part_000` compute the same filtered
subsequence whenever at most one category is selected. -/
theorem applyFilters_all_any_agree_le_one_category (E : List Expense) (s : FilterSpec)
    (h : s.categories.length ≤ 1) : applyFilters E s = applyFiltersAny E s := by
  unfold applyFilters applyFiltersAny
  refine List.filter_congr fun e _ => ?_
  unfold keepExpense keepExpenseAny
  rcases hc : s.categories with _ | ⟨c, ct⟩
  · simp [hc]
  · rcases ct with _ | ⟨d, t⟩
    · simp [hc]
    · rw [hc] at h
      simp at h

/-- C10 (witness): the theorem applied at a concrete expense list and a
spec with exactly one selected category. -/
theorem applyFilters_all_any_agree_le_one_category_witness :
    exampleSpec.categories.length ≤ 1 ∧
    applyFilters [exampleExpense] exampleSpec = applyFiltersAny [exampleExpense] exampleSpec :=
  ⟨by decide, applyFilters_all_any_agree_le_one_category [exampleExpense] exampleSpec (by decide)⟩

end Expensify
